import Mathlib

/-!
Verification development for the `uuid` crate (`src/lib.rs`).

The 16-byte UUID buffer (`[u8; 16]`) is modelled as a `List Nat` whose
elements are below 256 and whose length is 16; theorems carry those bounds
as hypotheses.  Rust strings are modelled as `List Char`; `str::len()`
(a UTF-8 byte count) is modelled by summing `Char.utf8Size`.  Fallible
operations return `Except ParseError` / `Option`, matching the source.
-/

set_option maxRecDepth 40000

/-- A 128-bit (16 byte) buffer containing the ID (`pub type UuidBytes = [u8; 16]`).
Each entry is a `u8`, i.e. a `Nat` below 256. -/
abbrev UuidBytes := List Nat

/-- The version of the UUID, denoting the generating algorithm. -/
inductive UuidVersion
  | Mac
  | Dce
  | Md5
  | Random
  | Sha1
deriving DecidableEq

/-- The numeric discriminant of a `UuidVersion` (`v as u8` in the source). -/
def UuidVersion.num : UuidVersion → Nat
  | .Mac => 1
  | .Dce => 2
  | .Md5 => 3
  | .Random => 4
  | .Sha1 => 5

/-- The reserved variants of UUIDs. -/
inductive UuidVariant
  | NCS
  | RFC4122
  | Microsoft
  | Future
deriving DecidableEq

/-- Error details for string parsing failures. -/
inductive ParseError
  | InvalidLength (found : Nat)
  | InvalidCharacter (found : Char) (pos : Nat)
  | InvalidGroups (found : Nat)
  | InvalidGroupLength (group found expecting : Nat)
  | InvalidVersion (version : Char)
deriving DecidableEq

/-- Length of each hyphenated group in hex digits (`static UuidGroupLens`). -/
def UuidGroupLens : List Nat := [8, 4, 4, 4, 12]

/-- Models `fn copy_memory(dst: &mut [u8], src: &[u8])`: overwrite the first
`min dst.length src.length` entries of `dst` with those of `src`, keeping the
rest of `dst`. -/
def copy_memory (dst src : List Nat) : List Nat :=
  src.take dst.length ++ dst.drop src.length

/-- Models Rust `str::len()`: the length of the string in UTF-8 bytes. -/
def byteLen (s : List Char) : Nat := (s.map Char.utf8Size).sum

/-- The lowercase hexadecimal digit for `n < 16`, as produced by the
`{:02x}` / `{:08x}` format specifiers in the source. -/
def hexDigit (n : Nat) : Char :=
  if n < 10 then Char.ofNat (48 + n) else Char.ofNat (87 + n)

/-- The two-digit lowercase hex encoding `{:02x}` of a byte. -/
def byteToHex (b : Nat) : List Char := [hexDigit (b / 16), hexDigit (b % 16)]

/-- `w`-digit lowercase zero-padded hex encoding (`{:0wx}`) of `n < 16 ^ w`,
most significant digit first. -/
def hexPad : Nat → Nat → List Char
  | 0, _ => []
  | w + 1, n => hexPad w (n / 16) ++ [hexDigit (n % 16)]

/-- Big-endian 16-bit word from two bytes (`u16::to_be` plus the transmute to
bytes in the source nets out to big-endian byte order). -/
def beU16 (b0 b1 : Nat) : Nat := b0 * 256 + b1

/-- Big-endian 32-bit word from four bytes. -/
def beU32 (b0 b1 b2 b3 : Nat) : Nat := ((b0 * 256 + b1) * 256 + b2) * 256 + b3

/-- The character at code point `c` is a hexadecimal digit, per the range
patterns `'0'...'9' | 'A'...'F' | 'a'...'f'` used by `parse_str`. -/
def isHexDigitChar (c : Char) : Prop :=
  ('0' ≤ c ∧ c ≤ '9') ∨ ('A' ≤ c ∧ c ≤ 'F') ∨ ('a' ≤ c ∧ c ≤ 'f')

instance (c : Char) : Decidable (isHexDigitChar c) := by
  unfold isHexDigitChar; infer_instance

/-- The numeric value of a hex digit, as computed by
`u8::from_str_radix(_, 16)` on a single character (0 on non-hex input,
which never occurs in `parse_str`). -/
def hexVal (c : Char) : Nat :=
  if '0' ≤ c ∧ c ≤ '9' then c.toNat - 48
  else if 'A' ≤ c ∧ c ≤ 'F' then c.toNat - 55
  else if 'a' ≤ c ∧ c ≤ 'f' then c.toNat - 87
  else 0

/-- Decode consecutive pairs of hex digits into bytes: the loop
`ub[i] = u8::from_str_radix(&vs[i*2 .. (i+1)*2], 16).unwrap()` over a
32-character string. -/
def decodeHex : List Char → List Nat
  | c1 :: c2 :: rest => (hexVal c1 * 16 + hexVal c2) :: decodeHex rest
  | _ => []

/-- The literal `"urn:uuid:"` as a character list. -/
def urnHeader : List Char := ['u', 'r', 'n', ':', 'u', 'u', 'i', 'd', ':']

/-- The all-zero simple spelling `"00000000000000000000000000000000"`. -/
def zeros32 : List Char := List.replicate 32 '0'

/-- The all-zero hyphenated spelling `"00000000-0000-0000-0000-000000000000"`. -/
def zerosHyphen : List Char :=
  List.replicate 8 '0' ++ '-' :: (List.replicate 4 '0' ++ '-' ::
    (List.replicate 4 '0' ++ '-' :: (List.replicate 4 '0' ++ '-' ::
      List.replicate 12 '0')))

/-- The all-zero URN spelling `"urn:uuid:00000000-0000-0000-0000-000000000000"`. -/
def zerosUrn : List Char := urnHeader ++ zerosHyphen

/-- The test input `"F9168C5E-CEB2-4faa-B6BF1-02BF39FA1E4"` (fourth group too
long) from the crate's own test suite. -/
def groupLenExample : List Char :=
  ['F', '9', '1', '6', '8', 'C', '5', 'E', '-', 'C', 'E', 'B', '2', '-',
   '4', 'f', 'a', 'a', '-', 'B', '6', 'B', 'F', '1', '-',
   '0', '2', 'B', 'F', '3', '9', 'F', 'A', '1', 'E', '4']

/-- A sample 16-byte buffer (the bytes of `67e55044-10b1-426f-9247-bb680e5fe0c8`). -/
def sampleBytes : UuidBytes :=
  [0x67, 0xe5, 0x50, 0x44, 0x10, 0xb1, 0x42, 0x6f,
   0x92, 0x47, 0xbb, 0x68, 0x0e, 0x5f, 0xe0, 0xc8]

namespace Uuid

/-- `Uuid::nil()`: the all-zero UUID. -/
def nil : UuidBytes := List.replicate 16 0

/-- `Uuid::is_nil()`: all 16 bytes are zero. -/
def is_nil (u : UuidBytes) : Prop := ∀ b ∈ u, b = 0

/-- `Uuid::from_bytes`: succeeds exactly on 16-byte inputs, copying them into
a fresh zeroed buffer. -/
def from_bytes (b : List Nat) : Option UuidBytes :=
  if b.length ≠ 16 then none
  else some (copy_memory (List.replicate 16 0) b)

/-- `Uuid::set_variant`: overwrite the variant bits in octet 8. -/
def set_variant (u : UuidBytes) (v : UuidVariant) : UuidBytes :=
  u.set 8 (match v with
    | UuidVariant.NCS => u.getD 8 0 &&& 0x7f
    | UuidVariant.RFC4122 => (u.getD 8 0 &&& 0x3f) ||| 0x80
    | UuidVariant.Microsoft => (u.getD 8 0 &&& 0x1f) ||| 0xc0
    | UuidVariant.Future => (u.getD 8 0 &&& 0x1f) ||| 0xe0)

/-- The classification of a variant byte performed by `Uuid::get_variant`. -/
def variantOf (x : Nat) : Option UuidVariant :=
  if x &&& 0x80 = 0x00 then some UuidVariant.NCS
  else if x &&& 0xc0 = 0x80 then some UuidVariant.RFC4122
  else if x &&& 0xe0 = 0xc0 then some UuidVariant.Microsoft
  else if x &&& 0xe0 = 0xe0 then some UuidVariant.Future
  else none

/-- `Uuid::get_variant`: classify octet 8. -/
def get_variant (u : UuidBytes) : Option UuidVariant := variantOf (u.getD 8 0)

/-- `Uuid::set_version`: overwrite the high nibble of octet 6. -/
def set_version (u : UuidBytes) (v : UuidVersion) : UuidBytes :=
  u.set 6 ((u.getD 6 0 &&& 0xF) ||| (v.num <<< 4))

/-- `Uuid::get_version_num`: the high nibble of octet 6. -/
def get_version_num (u : UuidBytes) : Nat := u.getD 6 0 >>> 4

/-- `Uuid::get_version`: map the high nibble of octet 6 to a named version. -/
def get_version (u : UuidBytes) : Option UuidVersion :=
  match u.getD 6 0 >>> 4 with
  | 1 => some UuidVersion.Mac
  | 2 => some UuidVersion.Dce
  | 3 => some UuidVersion.Md5
  | 4 => some UuidVersion.Random
  | 5 => some UuidVersion.Sha1
  | _ => none

/-- `Uuid::new_v4`, with the 16 bytes drawn from the thread RNG passed in
explicitly as `rb` (the random source is an external collaborator). -/
def new_v4 (rb : List Nat) : UuidBytes :=
  let u := copy_memory (List.replicate 16 0) rb
  set_version (set_variant u UuidVariant.RFC4122) UuidVersion.Random

/-- `Uuid::from_fields`: pack `d1`, `d2`, `d3` in big-endian byte order
(`to_be` plus the struct transmute) and copy `d4` into the 8-byte tail via
`copy_memory`. -/
def from_fields (d1 d2 d3 : Nat) (d4 : List Nat) : UuidBytes :=
  [d1 / 2 ^ 24 % 256, d1 / 2 ^ 16 % 256, d1 / 2 ^ 8 % 256, d1 % 256,
   d2 / 2 ^ 8 % 256, d2 % 256,
   d3 / 2 ^ 8 % 256, d3 % 256]
  ++ copy_memory (List.replicate 8 0) d4

/-- `Uuid::to_simple_string`: each byte as two lowercase hex digits, in
buffer order. -/
def to_simple_string (u : UuidBytes) : List Char := u.flatMap byteToHex

/-- `Uuid::to_hyphenated_string`: reinterpret the buffer as the four-field
struct (big-endian words, via `transmute_copy` + `to_be`) and format as
`{:08x}-{:04x}-{:04x}-{:02x}{:02x}-{:02x}{:02x}{:02x}{:02x}{:02x}{:02x}`. -/
def to_hyphenated_string (u : UuidBytes) : List Char :=
  hexPad 8 (beU32 (u.getD 0 0) (u.getD 1 0) (u.getD 2 0) (u.getD 3 0)) ++
  '-' :: (hexPad 4 (beU16 (u.getD 4 0) (u.getD 5 0)) ++
  '-' :: (hexPad 4 (beU16 (u.getD 6 0) (u.getD 7 0)) ++
  '-' :: (hexPad 2 (u.getD 8 0) ++ hexPad 2 (u.getD 9 0) ++
  '-' :: (hexPad 2 (u.getD 10 0) ++ hexPad 2 (u.getD 11 0) ++
          hexPad 2 (u.getD 12 0) ++ hexPad 2 (u.getD 13 0) ++
          hexPad 2 (u.getD 14 0) ++ hexPad 2 (u.getD 15 0)))))

/-- `Uuid::to_urn_string`: the hyphenated form with the `"urn:uuid:"` header. -/
def to_urn_string (u : UuidBytes) : List Char :=
  urnHeader ++ to_hyphenated_string u

/-- Step 1 of `parse_str`: the overall length (in UTF-8 bytes, Rust
`str::len()`) must be 32, 36 or 45. -/
def checkLength (us : List Char) : Except ParseError Unit :=
  if byteLen us ≠ 32 ∧ byteLen us ≠ 36 ∧ byteLen us ≠ 45 then
    Except.error (ParseError.InvalidLength (byteLen us))
  else Except.ok ()

/-- Step 2 of `parse_str`: strip a leading `"urn:uuid:"` if present
(`us = &us[9..orig_len]`). -/
def stripUrn (us : List Char) : List Char :=
  if urnHeader.isPrefixOf us then us.drop 9 else us

/-- Step 3 of `parse_str`: every character must be a hex digit or hyphen;
the first offender is reported with its index (`chars().enumerate()`). -/
def checkChars (i : Nat) : List Char → Except ParseError Unit
  | [] => Except.ok ()
  | c :: rest =>
    if isHexDigitChar c ∨ c = '-' then checkChars (i + 1) rest
    else Except.error (ParseError.InvalidCharacter c i)

/-- `us.split("-")`: split a character list on hyphens; adjacent, leading and
trailing hyphens produce empty groups. -/
def splitDash : List Char → List (List Char)
  | [] => [[]]
  | c :: rest =>
    if c = '-' then [] :: splitDash rest
    else
      match splitDash rest with
      | [] => [[c]]
      | g :: gs => (c :: g) :: gs

/-- The loop checking the five hyphenated group lengths against
`UuidGroupLens` (a `zip` + `enumerate`, reporting the first mismatch). -/
def checkGroupLens (i : Nat) : List Nat → List Nat → Except ParseError Unit
  | [], _ => Except.ok ()
  | _, [] => Except.ok ()
  | gl :: gls, e :: es =>
    if gl ≠ e then Except.error (ParseError.InvalidGroupLength i gl e)
    else checkGroupLens (i + 1) gls es

/-- Step 4 of `parse_str`: validate the group-length list (`match group_lens.len()`). -/
def groupCheck (lens : List Nat) : Except ParseError Unit :=
  if lens.length = 1 then
    if lens.getD 0 0 ≠ 32 then Except.error (ParseError.InvalidLength (lens.getD 0 0))
    else Except.ok ()
  else if lens.length = 5 then checkGroupLens 0 lens UuidGroupLens
  else Except.error (ParseError.InvalidGroups lens.length)

/-- Steps 1–5 of `parse_str`: all validation up to and including producing
the concatenated 32-character hex string `vs`. -/
def normalize (us : List Char) : Except ParseError (List Char) :=
  match checkLength us with
  | Except.error e => Except.error e
  | Except.ok () =>
    match checkChars 0 (stripUrn us) with
    | Except.error e => Except.error e
    | Except.ok () =>
      match groupCheck ((splitDash (stripUrn us)).map List.length) with
      | Except.error e => Except.error e
      | Except.ok () => Except.ok (splitDash (stripUrn us)).flatten

/-- `Uuid::parse_str`: full parsing pipeline.  After `normalize`, the nil
shortcut, the version-nibble check on character 12, and the hex decode
(whose `unwrap`s are justified by `normalize_ok_spec` below). -/
def parse_str (us : List Char) : Except ParseError UuidBytes :=
  match normalize us with
  | Except.error e => Except.error e
  | Except.ok vs =>
    if ∀ c ∈ vs, c = '0' then Except.ok nil
    else
      if '1' ≤ vs.getD 12 ' ' ∧ vs.getD 12 ' ' ≤ '5' then Except.ok (decodeHex vs)
      else Except.error (ParseError.InvalidVersion (vs.getD 12 ' '))

end Uuid

open Uuid

instance {ε α : Type} [DecidableEq ε] [DecidableEq α] : DecidableEq (Except ε α) := fun a b =>
  match a, b with
  | Except.error x, Except.error y =>
    if h : x = y then Decidable.isTrue (by rw [h]) else Decidable.isFalse (by simp [h])
  | Except.error _, Except.ok _ => Decidable.isFalse (by simp)
  | Except.ok _, Except.error _ => Decidable.isFalse (by simp)
  | Except.ok x, Except.ok y =>
    if h : x = y then Decidable.isTrue (by rw [h]) else Decidable.isFalse (by simp [h])

/-! ### Facts about single hex digits, established by finite check -/

theorem hexDigit_isHex : ∀ n < 16, isHexDigitChar (hexDigit n) := by decide

theorem hexDigit_ne_dash : ∀ n < 16, hexDigit n ≠ '-' := by decide

theorem hexDigit_ne_u : ∀ n < 16, hexDigit n ≠ 'u' := by decide

theorem hexDigit_utf8Size : ∀ n < 16, Char.utf8Size (hexDigit n) = 1 := by decide

theorem hexVal_hexDigit : ∀ n < 16, hexVal (hexDigit n) = n := by decide

theorem hexDigit_eq_zero_iff : ∀ n < 16, (hexDigit n = '0' ↔ n = 0) := by decide

theorem hexDigit_version_range :
    ∀ n < 16, ((1 ≤ n ∧ n ≤ 5) ↔ ('1' ≤ hexDigit n ∧ hexDigit n ≤ '5')) := by decide

theorem isHexDigitChar_lower : ∀ n < 16, ('0' ≤ hexDigit n ∧ hexDigit n ≤ '9') ∨
    ('a' ≤ hexDigit n ∧ hexDigit n ≤ 'f') := by decide

/-! ### Byte-length (UTF-8) lemmas -/

theorem byteLen_cons (c : Char) (l : List Char) :
    byteLen (c :: l) = c.utf8Size + byteLen l := by
  simp [byteLen]

theorem byteLen_append (l1 l2 : List Char) :
    byteLen (l1 ++ l2) = byteLen l1 + byteLen l2 := by
  simp [byteLen]

/-! ### Lemmas about `to_simple_string` -/

theorem to_simple_cons (b : Nat) (B : UuidBytes) :
    to_simple_string (b :: B) =
      hexDigit (b / 16) :: hexDigit (b % 16) :: to_simple_string B := by
  simp [to_simple_string, byteToHex]

theorem to_simple_append (B1 B2 : UuidBytes) :
    to_simple_string (B1 ++ B2) = to_simple_string B1 ++ to_simple_string B2 := by
  simp [to_simple_string]

theorem to_simple_length (B : UuidBytes) :
    (to_simple_string B).length = 2 * B.length := by
  induction B with
  | nil => rfl
  | cons b B ih => rw [to_simple_cons]; simp [ih]; omega

theorem byteLen_to_simple {B : UuidBytes} (hB : ∀ b ∈ B, b < 256) :
    byteLen (to_simple_string B) = 2 * B.length := by
  induction B with
  | nil => rfl
  | cons b B ih =>
    have hb : b < 256 := hB b (by simp)
    rw [to_simple_cons, byteLen_cons, byteLen_cons,
      hexDigit_utf8Size _ (by omega : b / 16 < 16),
      hexDigit_utf8Size _ (by omega : b % 16 < 16),
      ih (fun x hx => hB x (List.mem_cons_of_mem _ hx))]
    simp; omega

theorem mem_to_simple {B : UuidBytes} (hB : ∀ b ∈ B, b < 256) :
    ∀ c ∈ to_simple_string B, isHexDigitChar c ∧ c ≠ '-' := by
  induction B with
  | nil => simp [to_simple_string]
  | cons b B ih =>
    intro c hc
    have hb : b < 256 := hB b (by simp)
    rw [to_simple_cons] at hc
    rcases List.mem_cons.mp hc with rfl | hc
    · exact ⟨hexDigit_isHex _ (by omega), hexDigit_ne_dash _ (by omega)⟩
    rcases List.mem_cons.mp hc with rfl | hc
    · exact ⟨hexDigit_isHex _ (by omega), hexDigit_ne_dash _ (by omega)⟩
    · exact ih (fun x hx => hB x (List.mem_cons_of_mem _ hx)) c hc

theorem decodeHex_to_simple {B : UuidBytes} (hB : ∀ b ∈ B, b < 256) :
    decodeHex (to_simple_string B) = B := by
  induction B with
  | nil => rfl
  | cons b B ih =>
    have hb : b < 256 := hB b (by simp)
    rw [to_simple_cons]
    simp only [decodeHex]
    rw [hexVal_hexDigit _ (by omega : b / 16 < 16),
      hexVal_hexDigit _ (by omega : b % 16 < 16),
      ih (fun x hx => hB x (List.mem_cons_of_mem _ hx))]
    congr 1
    omega

theorem to_simple_all_zero_iff {B : UuidBytes} (hB : ∀ b ∈ B, b < 256) :
    (∀ c ∈ to_simple_string B, c = '0') ↔ (∀ b ∈ B, b = 0) := by
  induction B with
  | nil => simp [to_simple_string]
  | cons b B ih =>
    have hb : b < 256 := hB b (by simp)
    rw [to_simple_cons]
    simp only [List.mem_cons, forall_eq_or_imp]
    rw [hexDigit_eq_zero_iff _ (by omega : b / 16 < 16),
      hexDigit_eq_zero_iff _ (by omega : b % 16 < 16),
      ih (fun x hx => hB x (List.mem_cons_of_mem _ hx))]
    constructor
    · rintro ⟨h1, h2, h3⟩; exact ⟨by omega, h3⟩
    · rintro ⟨h1, h2⟩; exact ⟨by omega, by omega, h2⟩

/-! ### Lemmas about `splitDash` -/

theorem splitDash_ne_nil (l : List Char) : splitDash l ≠ [] := by
  cases l with
  | nil => simp [splitDash]
  | cons c rest =>
    by_cases h : c = '-'
    · simp [splitDash, h]
    · simp only [splitDash, if_neg h]
      cases splitDash rest <;> simp

theorem splitDash_no_dash {l : List Char} (h : ∀ c ∈ l, c ≠ '-') :
    splitDash l = [l] := by
  induction l with
  | nil => rfl
  | cons c rest ih =>
    have hc : c ≠ '-' := h c (by simp)
    simp only [splitDash, if_neg hc]
    rw [ih (fun x hx => h x (List.mem_cons_of_mem _ hx))]

theorem splitDash_append_dash {a : List Char} (l : List Char)
    (h : ∀ c ∈ a, c ≠ '-') : splitDash (a ++ '-' :: l) = a :: splitDash l := by
  induction a with
  | nil => simp [splitDash]
  | cons c a ih =>
    have hc : c ≠ '-' := h c (by simp)
    simp only [List.cons_append, splitDash, if_neg hc, List.append_eq,
      ih (fun x hx => h x (List.mem_cons_of_mem _ hx))]

theorem mem_flatten_splitDash {c : Char} {l : List Char}
    (hc : c ∈ (splitDash l).flatten) : c ∈ l ∧ c ≠ '-' := by
  induction l with
  | nil => simp [splitDash] at hc
  | cons d rest ih =>
    by_cases hd : d = '-'
    · rw [hd] at hc ⊢
      simp only [splitDash, if_pos rfl, List.flatten_cons, List.nil_append] at hc
      have := ih hc
      exact ⟨List.mem_cons_of_mem _ this.1, this.2⟩
    · simp only [splitDash, if_neg hd] at hc
      cases hsp : splitDash rest with
      | nil => exact absurd hsp (splitDash_ne_nil rest)
      | cons g gs =>
        rw [hsp] at hc
        rw [List.flatten_cons, List.cons_append, List.mem_cons] at hc
        rcases hc with rfl | hc
        · exact ⟨by simp, hd⟩
        · rw [← List.flatten_cons, ← hsp] at hc
          have := ih hc
          exact ⟨List.mem_cons_of_mem _ this.1, this.2⟩

/-! ### Lemmas about `checkChars` and `checkGroupLens` -/

theorem checkChars_ok {l : List Char} (i : Nat)
    (h : ∀ c ∈ l, isHexDigitChar c ∨ c = '-') : checkChars i l = Except.ok () := by
  induction l generalizing i with
  | nil => rfl
  | cons c rest ih =>
    simp only [checkChars, if_pos (h c (by simp))]
    exact ih _ (fun x hx => h x (List.mem_cons_of_mem _ hx))

theorem checkChars_mem {l : List Char} {i : Nat}
    (h : checkChars i l = Except.ok ()) : ∀ c ∈ l, isHexDigitChar c ∨ c = '-' := by
  induction l generalizing i with
  | nil => simp
  | cons c rest ih =>
    by_cases hc : isHexDigitChar c ∨ c = '-'
    · simp only [checkChars, if_pos hc] at h
      intro x hx
      rcases List.mem_cons.mp hx with rfl | hx
      · exact hc
      · exact ih h x hx
    · simp [checkChars, if_neg hc] at h

theorem checkGroupLens_eq {ls es : List Nat} (i : Nat)
    (hlen : ls.length = es.length) (h : checkGroupLens i ls es = Except.ok ()) :
    ls = es := by
  induction ls generalizing es i with
  | nil => cases es with
    | nil => rfl
    | cons e es => simp at hlen
  | cons a ls ih =>
    cases es with
    | nil => simp at hlen
    | cons e es =>
      simp only [checkGroupLens] at h
      by_cases ha : a = e
      · subst ha
        rw [if_neg (by simp)] at h
        rw [ih _ (by simpa using hlen) h]
      · rw [if_pos ha] at h
        simp at h

/-! ### Lemmas about `hexPad` -/

theorem hexPad_add (v w n : Nat) :
    hexPad (v + w) n = hexPad v (n / 16 ^ w) ++ hexPad w (n % 16 ^ w) := by
  induction w generalizing n with
  | zero => simp [hexPad]
  | succ w ih =>
    show hexPad ((v + w) + 1) n = _
    simp only [hexPad, ih]
    have e1 : n / 16 / 16 ^ w = n / 16 ^ (w + 1) := by
      rw [Nat.div_div_eq_div_mul, ← Nat.pow_succ']
    have e2 : n % 16 ^ (w + 1) / 16 = n / 16 % 16 ^ w := by
      rw [Nat.pow_succ', Nat.mod_mul_right_div_self]
    have e3 : n % 16 ^ (w + 1) % 16 = n % 16 :=
      Nat.mod_mod_of_dvd n (dvd_pow_self 16 (Nat.succ_ne_zero w))
    rw [e1, e2, e3, List.append_assoc]

theorem hexPad_two {b : Nat} (hb : b < 256) : hexPad 2 b = byteToHex b := by
  have h2 : hexPad 2 b = [hexDigit (b / 16 % 16), hexDigit (b % 16)] := rfl
  have : b / 16 % 16 = b / 16 := Nat.mod_eq_of_lt (by omega)
  rw [h2, this, byteToHex]

theorem hexPad_beU16 {b0 b1 : Nat} (h0 : b0 < 256) (h1 : b1 < 256) :
    hexPad 4 (beU16 b0 b1) = byteToHex b0 ++ byteToHex b1 := by
  have p2 : (16 : Nat) ^ 2 = 256 := by norm_num
  have e4 : (4 : Nat) = 2 + 2 := rfl
  rw [e4, hexPad_add, p2]
  have m1 : beU16 b0 b1 % 256 = b1 := by unfold beU16; omega
  have m0 : beU16 b0 b1 / 256 = b0 := by unfold beU16; omega
  rw [m0, m1, hexPad_two h0, hexPad_two h1]

theorem hexPad_beU32 {b0 b1 b2 b3 : Nat} (h0 : b0 < 256) (h1 : b1 < 256)
    (h2 : b2 < 256) (h3 : b3 < 256) :
    hexPad 8 (beU32 b0 b1 b2 b3) =
      byteToHex b0 ++ byteToHex b1 ++ byteToHex b2 ++ byteToHex b3 := by
  have p2 : (16 : Nat) ^ 2 = 256 := by norm_num
  have e8 : (8 : Nat) = 6 + 2 := rfl
  have e6 : (6 : Nat) = 4 + 2 := rfl
  have e4 : (4 : Nat) = 2 + 2 := rfl
  rw [e8, hexPad_add, p2, e6, hexPad_add, p2, e4, hexPad_add, p2]
  have m3 : beU32 b0 b1 b2 b3 % 256 = b3 := by unfold beU32; omega
  have m2 : beU32 b0 b1 b2 b3 / 256 % 256 = b2 := by unfold beU32; omega
  have m1 : beU32 b0 b1 b2 b3 / 256 / 256 % 256 = b1 := by unfold beU32; omega
  have m0 : beU32 b0 b1 b2 b3 / 256 / 256 / 256 = b0 := by unfold beU32; omega
  rw [m0, m1, m2, m3, hexPad_two h0, hexPad_two h1, hexPad_two h2, hexPad_two h3]

/-! ### `stripUrn` and UTF-8 length lemmas -/

theorem stripUrn_of_head_ne (c : Char) (l : List Char) (h : c ≠ 'u') :
    stripUrn (c :: l) = c :: l := by
  have h' : ¬ ('u' = c) := fun he => h he.symm
  simp [stripUrn, urnHeader, List.isPrefixOf, beq_iff_eq, h']

theorem stripUrn_header (l : List Char) : stripUrn (urnHeader ++ l) = l := by
  have hpre : urnHeader.isPrefixOf (urnHeader ++ l) = true :=
    List.isPrefixOf_iff_prefix.mpr (List.prefix_append _ _)
  simp [stripUrn, hpre, urnHeader]

theorem utf8Size_of_hex {c : Char} (h : isHexDigitChar c) : c.utf8Size = 1 := by
  have hle : c.val ≤ 0x7F := by
    rcases h with ⟨h1, h2⟩ | ⟨h1, h2⟩ | ⟨h1, h2⟩ <;>
      exact UInt32.le_trans h2 (by decide)
  simp [Char.utf8Size, hle]

theorem byteLen_eq_length {l : List Char} (h : ∀ c ∈ l, c.utf8Size = 1) :
    byteLen l = l.length := by
  induction l with
  | nil => rfl
  | cons c rest ih =>
    rw [byteLen_cons, h c (by simp), ih (fun x hx => h x (List.mem_cons_of_mem _ hx))]
    simp only [List.length_cons]
    omega

theorem to_simple_getD_even (B : UuidBytes) (i : Nat) (hi : i < B.length) :
    (to_simple_string B).getD (2 * i) ' ' = hexDigit (B.getD i 0 / 16) := by
  induction B generalizing i with
  | nil => simp at hi
  | cons b B' ih =>
    cases i with
    | zero => rw [to_simple_cons]; simp
    | succ i =>
      rw [to_simple_cons]
      have h2 : 2 * (i + 1) = 2 * i + 1 + 1 := by omega
      rw [h2]
      simp only [List.getD_cons_succ]
      exact ih i (by simpa using hi)

/-! ### The concatenated hex string produced by `normalize` -/

theorem normalize_ok_spec {us vs : List Char} (h : Uuid.normalize us = Except.ok vs) :
    vs.length = 32 ∧ ∀ c ∈ vs, isHexDigitChar c := by
  unfold Uuid.normalize at h
  split at h
  · exact absurd h (by simp)
  split at h
  · exact absurd h (by simp)
  next heqC =>
    split at h
    · exact absurd h (by simp)
    next heqG =>
      have hvs : vs = (splitDash (stripUrn us)).flatten := by
        cases h; rfl
      have hhex : ∀ c ∈ vs, isHexDigitChar c := by
        intro c hc
        rw [hvs] at hc
        have hmem := mem_flatten_splitDash hc
        rcases checkChars_mem heqC c hmem.1 with hx | hdash
        · exact hx
        · exact absurd hdash hmem.2
      refine ⟨?_, hhex⟩
      unfold groupCheck at heqG
      split at heqG
      next h1 =>
        -- a single group, whose length must be 32
        split at heqG
        · exact absurd heqG (by simp)
        next h32 =>
          rcases List.length_eq_one.mp (by simpa using h1) with ⟨g, hg⟩
          have hlen32 : g.length = 32 := by
            rw [hg] at h32
            simpa using h32
          rw [hvs, hg]
          simpa using hlen32
      split at heqG
      next h1 h5 =>
        -- five groups, whose lengths must match UuidGroupLens
        have hlens : (splitDash (stripUrn us)).map List.length = UuidGroupLens :=
          checkGroupLens_eq 0 (by simpa [UuidGroupLens] using h5) heqG
        rw [hvs, List.length_flatten, hlens]
        rfl
      · exact absurd heqG (by simp)

/-! ### Running `normalize` from its stage results -/

theorem normalize_eq_of_stages {us : List Char} {gs : List (List Char)}
    (hCL : checkLength us = Except.ok ())
    (hCC : checkChars 0 (stripUrn us) = Except.ok ())
    (hsplit : splitDash (stripUrn us) = gs)
    (hGC : groupCheck (gs.map List.length) = Except.ok ()) :
    Uuid.normalize us = Except.ok gs.flatten := by
  simp only [Uuid.normalize, hCL, hCC, hsplit, hGC]

theorem normalize_to_simple {B : UuidBytes} (hB : ∀ b ∈ B, b < 256)
    (hlen : B.length = 16) :
    Uuid.normalize (to_simple_string B) = Except.ok (to_simple_string B) := by
  have hchars := mem_to_simple hB
  have hCL : checkLength (to_simple_string B) = Except.ok () := by
    unfold checkLength
    rw [byteLen_to_simple hB, hlen]
    simp
  have hstrip : stripUrn (to_simple_string B) = to_simple_string B := by
    cases B with
    | nil => simp at hlen
    | cons b0 B' =>
      have hb0 : b0 < 256 := hB b0 (by simp)
      rw [to_simple_cons]
      exact stripUrn_of_head_ne _ _ (hexDigit_ne_u _ (by omega))
  have hCC : checkChars 0 (stripUrn (to_simple_string B)) = Except.ok () := by
    rw [hstrip]
    exact checkChars_ok 0 (fun c hc => Or.inl (hchars c hc).1)
  have hsplit : splitDash (stripUrn (to_simple_string B)) = [to_simple_string B] := by
    rw [hstrip]
    exact splitDash_no_dash (fun c hc => (hchars c hc).2)
  have hGC : groupCheck ([to_simple_string B].map List.length) = Except.ok () := by
    unfold groupCheck
    simp [to_simple_length, hlen]
  have := normalize_eq_of_stages hCL hCC hsplit hGC
  simpa using this

/-! ### The tail of `parse_str` after a successful `normalize` -/

theorem parse_str_ok_branch {us vs : List Char}
    (h : Uuid.normalize us = Except.ok vs) :
    Uuid.parse_str us =
      if ∀ c ∈ vs, c = '0' then Except.ok Uuid.nil
      else if '1' ≤ vs.getD 12 ' ' ∧ vs.getD 12 ' ' ≤ '5' then
        Except.ok (decodeHex vs)
      else Except.error (ParseError.InvalidVersion (vs.getD 12 ' ')) := by
  unfold Uuid.parse_str
  rw [h]

theorem parse_str_of_normalize {us : List Char} {B : UuidBytes}
    (hB : ∀ b ∈ B, b < 256) (hlen : B.length = 16)
    (hnorm : Uuid.normalize us = Except.ok (to_simple_string B))
    (hv : (∀ b ∈ B, b = 0) ∨ (1 ≤ B.getD 6 0 / 16 ∧ B.getD 6 0 / 16 ≤ 5)) :
    Uuid.parse_str us = Except.ok B := by
  rw [parse_str_ok_branch hnorm]
  rcases hv with hzero | hver
  · rw [if_pos ((to_simple_all_zero_iff hB).mpr hzero)]
    have : B = Uuid.nil := by
      rw [Uuid.nil, List.eq_replicate_iff]
      exact ⟨hlen, hzero⟩
    rw [this]
  · have hb6mem : B.getD 6 0 ∈ B := by
      rw [List.getD_eq_getElem?_getD, List.getElem?_eq_getElem (by omega)]
      exact List.getElem_mem _
    have hb6 : B.getD 6 0 < 256 := hB _ hb6mem
    have hnotzero : ¬ (∀ c ∈ to_simple_string B, c = '0') := by
      rw [to_simple_all_zero_iff hB]
      intro hall
      have := hall _ hb6mem
      omega
    rw [if_neg hnotzero]
    have hch : (to_simple_string B).getD 12 ' ' = hexDigit (B.getD 6 0 / 16) := by
      have := to_simple_getD_even B 6 (by omega)
      simpa using this
    have hrange : '1' ≤ (to_simple_string B).getD 12 ' ' ∧
        (to_simple_string B).getD 12 ' ' ≤ '5' := by
      rw [hch]
      exact (hexDigit_version_range _ (by omega)).mp hver
    rw [if_pos hrange, decodeHex_to_simple hB]

/-! ### `normalize` on a well-formed hyphenated string -/

theorem five_groups_byteLen {g1 g2 g3 g4 g5 : List Char}
    (h1 : ∀ c ∈ g1, isHexDigitChar c ∧ c ≠ '-')
    (h2 : ∀ c ∈ g2, isHexDigitChar c ∧ c ≠ '-')
    (h3 : ∀ c ∈ g3, isHexDigitChar c ∧ c ≠ '-')
    (h4 : ∀ c ∈ g4, isHexDigitChar c ∧ c ≠ '-')
    (h5 : ∀ c ∈ g5, isHexDigitChar c ∧ c ≠ '-')
    (hl1 : g1.length = 8) (hl2 : g2.length = 4) (hl3 : g3.length = 4)
    (hl4 : g4.length = 4) (hl5 : g5.length = 12) :
    byteLen (g1 ++ '-' :: (g2 ++ '-' :: (g3 ++ '-' :: (g4 ++ '-' :: g5)))) = 36 := by
  have hhx : ∀ (g : List Char), (∀ c ∈ g, isHexDigitChar c ∧ c ≠ '-') →
      byteLen g = g.length :=
    fun g hg => byteLen_eq_length (fun c hc => utf8Size_of_hex (hg c hc).1)
  rw [byteLen_append, byteLen_cons, byteLen_append, byteLen_cons, byteLen_append,
    byteLen_cons, byteLen_append, byteLen_cons,
    hhx g1 h1, hhx g2 h2, hhx g3 h3, hhx g4 h4, hhx g5 h5, hl1, hl2, hl3, hl4, hl5]
  decide

theorem five_groups_checkChars {g1 g2 g3 g4 g5 : List Char}
    (h1 : ∀ c ∈ g1, isHexDigitChar c ∧ c ≠ '-')
    (h2 : ∀ c ∈ g2, isHexDigitChar c ∧ c ≠ '-')
    (h3 : ∀ c ∈ g3, isHexDigitChar c ∧ c ≠ '-')
    (h4 : ∀ c ∈ g4, isHexDigitChar c ∧ c ≠ '-')
    (h5 : ∀ c ∈ g5, isHexDigitChar c ∧ c ≠ '-') :
    checkChars 0 (g1 ++ '-' :: (g2 ++ '-' :: (g3 ++ '-' :: (g4 ++ '-' :: g5)))) =
      Except.ok () := by
  apply checkChars_ok
  intro c hc
  rcases List.mem_append.mp hc with hcg | hrest
  · exact Or.inl (h1 c hcg).1
  rcases List.mem_cons.mp hrest with rfl | hrest
  · exact Or.inr rfl
  rcases List.mem_append.mp hrest with hcg | hrest
  · exact Or.inl (h2 c hcg).1
  rcases List.mem_cons.mp hrest with rfl | hrest
  · exact Or.inr rfl
  rcases List.mem_append.mp hrest with hcg | hrest
  · exact Or.inl (h3 c hcg).1
  rcases List.mem_cons.mp hrest with rfl | hrest
  · exact Or.inr rfl
  rcases List.mem_append.mp hrest with hcg | hrest
  · exact Or.inl (h4 c hcg).1
  rcases List.mem_cons.mp hrest with rfl | hrest
  · exact Or.inr rfl
  · exact Or.inl (h5 c hrest).1

theorem five_groups_splitDash {g1 g2 g3 g4 g5 : List Char}
    (h1 : ∀ c ∈ g1, isHexDigitChar c ∧ c ≠ '-')
    (h2 : ∀ c ∈ g2, isHexDigitChar c ∧ c ≠ '-')
    (h3 : ∀ c ∈ g3, isHexDigitChar c ∧ c ≠ '-')
    (h4 : ∀ c ∈ g4, isHexDigitChar c ∧ c ≠ '-')
    (h5 : ∀ c ∈ g5, isHexDigitChar c ∧ c ≠ '-') :
    splitDash (g1 ++ '-' :: (g2 ++ '-' :: (g3 ++ '-' :: (g4 ++ '-' :: g5)))) =
      [g1, g2, g3, g4, g5] := by
  rw [splitDash_append_dash _ (fun c hc => (h1 c hc).2),
    splitDash_append_dash _ (fun c hc => (h2 c hc).2),
    splitDash_append_dash _ (fun c hc => (h3 c hc).2),
    splitDash_append_dash _ (fun c hc => (h4 c hc).2),
    splitDash_no_dash (fun c hc => (h5 c hc).2)]

theorem five_groups_groupCheck {g1 g2 g3 g4 g5 : List Char}
    (hl1 : g1.length = 8) (hl2 : g2.length = 4) (hl3 : g3.length = 4)
    (hl4 : g4.length = 4) (hl5 : g5.length = 12) :
    groupCheck ([g1, g2, g3, g4, g5].map List.length) = Except.ok () := by
  simp only [List.map_cons, List.map_nil, hl1, hl2, hl3, hl4, hl5]
  decide

theorem normalize_five_groups {g1 g2 g3 g4 g5 : List Char} {c0 : Char} {t1 : List Char}
    (hg1 : g1 = c0 :: t1) (hc0 : c0 ≠ 'u')
    (h1 : ∀ c ∈ g1, isHexDigitChar c ∧ c ≠ '-')
    (h2 : ∀ c ∈ g2, isHexDigitChar c ∧ c ≠ '-')
    (h3 : ∀ c ∈ g3, isHexDigitChar c ∧ c ≠ '-')
    (h4 : ∀ c ∈ g4, isHexDigitChar c ∧ c ≠ '-')
    (h5 : ∀ c ∈ g5, isHexDigitChar c ∧ c ≠ '-')
    (hl1 : g1.length = 8) (hl2 : g2.length = 4) (hl3 : g3.length = 4)
    (hl4 : g4.length = 4) (hl5 : g5.length = 12) :
    Uuid.normalize (g1 ++ '-' :: (g2 ++ '-' :: (g3 ++ '-' :: (g4 ++ '-' :: g5)))) =
      Except.ok (g1 ++ (g2 ++ (g3 ++ (g4 ++ g5)))) := by
  have hstrip : stripUrn (g1 ++ '-' :: (g2 ++ '-' :: (g3 ++ '-' :: (g4 ++ '-' :: g5)))) =
      g1 ++ '-' :: (g2 ++ '-' :: (g3 ++ '-' :: (g4 ++ '-' :: g5))) := by
    rw [hg1, List.cons_append]
    exact stripUrn_of_head_ne _ _ hc0
  have hCL : checkLength (g1 ++ '-' :: (g2 ++ '-' :: (g3 ++ '-' :: (g4 ++ '-' :: g5)))) =
      Except.ok () := by
    unfold checkLength
    rw [five_groups_byteLen h1 h2 h3 h4 h5 hl1 hl2 hl3 hl4 hl5]
    simp
  have hres := normalize_eq_of_stages hCL
    (by rw [hstrip]; exact five_groups_checkChars h1 h2 h3 h4 h5)
    (by rw [hstrip]; exact five_groups_splitDash h1 h2 h3 h4 h5)
    (five_groups_groupCheck hl1 hl2 hl3 hl4 hl5)
  simpa [List.append_assoc] using hres

theorem normalize_five_groups_urn {g1 g2 g3 g4 g5 : List Char}
    (h1 : ∀ c ∈ g1, isHexDigitChar c ∧ c ≠ '-')
    (h2 : ∀ c ∈ g2, isHexDigitChar c ∧ c ≠ '-')
    (h3 : ∀ c ∈ g3, isHexDigitChar c ∧ c ≠ '-')
    (h4 : ∀ c ∈ g4, isHexDigitChar c ∧ c ≠ '-')
    (h5 : ∀ c ∈ g5, isHexDigitChar c ∧ c ≠ '-')
    (hl1 : g1.length = 8) (hl2 : g2.length = 4) (hl3 : g3.length = 4)
    (hl4 : g4.length = 4) (hl5 : g5.length = 12) :
    Uuid.normalize (urnHeader ++ (g1 ++ '-' :: (g2 ++ '-' :: (g3 ++ '-' :: (g4 ++ '-' :: g5))))) =
      Except.ok (g1 ++ (g2 ++ (g3 ++ (g4 ++ g5)))) := by
  have hCL : checkLength (urnHeader ++ (g1 ++ '-' :: (g2 ++ '-' :: (g3 ++ '-' :: (g4 ++ '-' :: g5))))) =
      Except.ok () := by
    unfold checkLength
    rw [byteLen_append, five_groups_byteLen h1 h2 h3 h4 h5 hl1 hl2 hl3 hl4 hl5,
      show byteLen urnHeader = 9 by decide]
    simp
  have hres := normalize_eq_of_stages hCL
    (by rw [stripUrn_header]; exact five_groups_checkChars h1 h2 h3 h4 h5)
    (by rw [stripUrn_header]; exact five_groups_splitDash h1 h2 h3 h4 h5)
    (five_groups_groupCheck hl1 hl2 hl3 hl4 hl5)
  simpa [List.append_assoc] using hres

/-! ### `to_hyphenated_string` as the simple string with hyphens inserted -/

theorem to_hyph_structure {b0 b1 b2 b3 b4 b5 b6 b7 b8 b9 b10 b11 b12 b13 b14 b15 : Nat}
    (h : ∀ b ∈ [b0, b1, b2, b3, b4, b5, b6, b7, b8, b9, b10, b11, b12, b13, b14, b15],
      b < 256) :
    to_hyphenated_string [b0, b1, b2, b3, b4, b5, b6, b7, b8, b9, b10, b11, b12, b13, b14, b15] =
      to_simple_string [b0, b1, b2, b3] ++ '-' ::
      (to_simple_string [b4, b5] ++ '-' ::
      (to_simple_string [b6, b7] ++ '-' ::
      (to_simple_string [b8, b9] ++ '-' ::
      to_simple_string [b10, b11, b12, b13, b14, b15]))) := by
  have hb0 : b0 < 256 := h _ (by simp)
  have hb1 : b1 < 256 := h _ (by simp)
  have hb2 : b2 < 256 := h _ (by simp)
  have hb3 : b3 < 256 := h _ (by simp)
  have hb4 : b4 < 256 := h _ (by simp)
  have hb5 : b5 < 256 := h _ (by simp)
  have hb6 : b6 < 256 := h _ (by simp)
  have hb7 : b7 < 256 := h _ (by simp)
  have hb8 : b8 < 256 := h _ (by simp)
  have hb9 : b9 < 256 := h _ (by simp)
  have hb10 : b10 < 256 := h _ (by simp)
  have hb11 : b11 < 256 := h _ (by simp)
  have hb12 : b12 < 256 := h _ (by simp)
  have hb13 : b13 < 256 := h _ (by simp)
  have hb14 : b14 < 256 := h _ (by simp)
  have hb15 : b15 < 256 := h _ (by simp)
  unfold to_hyphenated_string
  simp only [List.getD_cons_zero, List.getD_cons_succ]
  rw [hexPad_beU32 hb0 hb1 hb2 hb3, hexPad_beU16 hb4 hb5, hexPad_beU16 hb6 hb7,
    hexPad_two hb8, hexPad_two hb9, hexPad_two hb10, hexPad_two hb11,
    hexPad_two hb12, hexPad_two hb13, hexPad_two hb14, hexPad_two hb15]
  simp [to_simple_string, byteToHex, List.append_assoc]

theorem normalize_to_hyph {b0 b1 b2 b3 b4 b5 b6 b7 b8 b9 b10 b11 b12 b13 b14 b15 : Nat}
    (h : ∀ b ∈ [b0, b1, b2, b3, b4, b5, b6, b7, b8, b9, b10, b11, b12, b13, b14, b15],
      b < 256) :
    Uuid.normalize
        (to_hyphenated_string [b0, b1, b2, b3, b4, b5, b6, b7, b8, b9, b10, b11, b12, b13, b14, b15]) =
      Except.ok
        (to_simple_string [b0, b1, b2, b3, b4, b5, b6, b7, b8, b9, b10, b11, b12, b13, b14, b15]) := by
  have hb0 : b0 < 256 := h _ (by simp)
  have hs1 : ∀ b ∈ [b0, b1, b2, b3], b < 256 := by
    intro b hb; simp only [List.mem_cons, List.not_mem_nil, or_false] at hb
    rcases hb with rfl | rfl | rfl | rfl <;> exact h _ (by simp)
  have hs2 : ∀ b ∈ [b4, b5], b < 256 := by
    intro b hb; simp only [List.mem_cons, List.not_mem_nil, or_false] at hb
    rcases hb with rfl | rfl <;> exact h _ (by simp)
  have hs3 : ∀ b ∈ [b6, b7], b < 256 := by
    intro b hb; simp only [List.mem_cons, List.not_mem_nil, or_false] at hb
    rcases hb with rfl | rfl <;> exact h _ (by simp)
  have hs4 : ∀ b ∈ [b8, b9], b < 256 := by
    intro b hb; simp only [List.mem_cons, List.not_mem_nil, or_false] at hb
    rcases hb with rfl | rfl <;> exact h _ (by simp)
  have hs5 : ∀ b ∈ [b10, b11, b12, b13, b14, b15], b < 256 := by
    intro b hb; simp only [List.mem_cons, List.not_mem_nil, or_false] at hb
    rcases hb with rfl | rfl | rfl | rfl | rfl | rfl <;> exact h _ (by simp)
  have hg1eq : to_simple_string [b0, b1, b2, b3] =
      hexDigit (b0 / 16) :: (hexDigit (b0 % 16) :: to_simple_string [b1, b2, b3]) :=
    to_simple_cons _ _
  rw [to_hyph_structure h]
  have hmain := normalize_five_groups hg1eq (hexDigit_ne_u _ (by omega))
    (mem_to_simple hs1) (mem_to_simple hs2) (mem_to_simple hs3)
    (mem_to_simple hs4) (mem_to_simple hs5)
    (by simp [to_simple_length]) (by simp [to_simple_length])
    (by simp [to_simple_length]) (by simp [to_simple_length])
    (by simp [to_simple_length])
  rw [hmain]
  congr 1

theorem normalize_to_urn {b0 b1 b2 b3 b4 b5 b6 b7 b8 b9 b10 b11 b12 b13 b14 b15 : Nat}
    (h : ∀ b ∈ [b0, b1, b2, b3, b4, b5, b6, b7, b8, b9, b10, b11, b12, b13, b14, b15],
      b < 256) :
    Uuid.normalize
        (to_urn_string [b0, b1, b2, b3, b4, b5, b6, b7, b8, b9, b10, b11, b12, b13, b14, b15]) =
      Except.ok
        (to_simple_string [b0, b1, b2, b3, b4, b5, b6, b7, b8, b9, b10, b11, b12, b13, b14, b15]) := by
  have hs1 : ∀ b ∈ [b0, b1, b2, b3], b < 256 := by
    intro b hb; simp only [List.mem_cons, List.not_mem_nil, or_false] at hb
    rcases hb with rfl | rfl | rfl | rfl <;> exact h _ (by simp)
  have hs2 : ∀ b ∈ [b4, b5], b < 256 := by
    intro b hb; simp only [List.mem_cons, List.not_mem_nil, or_false] at hb
    rcases hb with rfl | rfl <;> exact h _ (by simp)
  have hs3 : ∀ b ∈ [b6, b7], b < 256 := by
    intro b hb; simp only [List.mem_cons, List.not_mem_nil, or_false] at hb
    rcases hb with rfl | rfl <;> exact h _ (by simp)
  have hs4 : ∀ b ∈ [b8, b9], b < 256 := by
    intro b hb; simp only [List.mem_cons, List.not_mem_nil, or_false] at hb
    rcases hb with rfl | rfl <;> exact h _ (by simp)
  have hs5 : ∀ b ∈ [b10, b11, b12, b13, b14, b15], b < 256 := by
    intro b hb; simp only [List.mem_cons, List.not_mem_nil, or_false] at hb
    rcases hb with rfl | rfl | rfl | rfl | rfl | rfl <;> exact h _ (by simp)
  unfold to_urn_string
  rw [to_hyph_structure h]
  have hmain := normalize_five_groups_urn
    (mem_to_simple hs1) (mem_to_simple hs2) (mem_to_simple hs3)
    (mem_to_simple hs4) (mem_to_simple hs5)
    (by simp [to_simple_length]) (by simp [to_simple_length])
    (by simp [to_simple_length]) (by simp [to_simple_length])
    (by simp [to_simple_length])
  rw [hmain]
  congr 1

/-! ### Further helper lemmas for the remaining claims -/

theorem to_simple_getD_odd (B : UuidBytes) (i : Nat) (hi : i < B.length) :
    (to_simple_string B).getD (2 * i + 1) ' ' = hexDigit (B.getD i 0 % 16) := by
  induction B generalizing i with
  | nil => simp at hi
  | cons b B' ih =>
    cases i with
    | zero => rw [to_simple_cons]; simp
    | succ i =>
      rw [to_simple_cons]
      have h2 : 2 * (i + 1) + 1 = 2 * i + 1 + 1 + 1 := by omega
      rw [h2]
      simp only [List.getD_cons_succ]
      exact ih i (by simpa using hi)

theorem mem_to_simple_lower {B : UuidBytes} (hB : ∀ b ∈ B, b < 256) :
    ∀ c ∈ to_simple_string B, ('0' ≤ c ∧ c ≤ '9') ∨ ('a' ≤ c ∧ c ≤ 'f') := by
  induction B with
  | nil => simp [to_simple_string]
  | cons b B ih =>
    intro c hc
    have hb : b < 256 := hB b (by simp)
    rw [to_simple_cons] at hc
    rcases List.mem_cons.mp hc with rfl | hc
    · exact isHexDigitChar_lower _ (by omega)
    rcases List.mem_cons.mp hc with rfl | hc
    · exact isHexDigitChar_lower _ (by omega)
    · exact ih (fun x hx => hB x (List.mem_cons_of_mem _ hx)) c hc

theorem hexVal_lt {c : Char} (h : isHexDigitChar c) : hexVal c < 16 := by
  rcases h with ⟨h1, h2⟩ | ⟨h1, h2⟩ | ⟨h1, h2⟩
  · have l1 : (48 : Nat) ≤ c.toNat := h1
    have l2 : c.toNat ≤ 57 := h2
    unfold hexVal
    rw [if_pos ⟨h1, h2⟩]
    omega
  · have l1 : (65 : Nat) ≤ c.toNat := h1
    have l2 : c.toNat ≤ 70 := h2
    have hn1 : ¬ ('0' ≤ c ∧ c ≤ '9') := by
      rintro ⟨_, hc⟩
      have : c.toNat ≤ 57 := hc
      omega
    unfold hexVal
    rw [if_neg hn1, if_pos ⟨h1, h2⟩]
    omega
  · have l1 : (97 : Nat) ≤ c.toNat := h1
    have l2 : c.toNat ≤ 102 := h2
    have hn1 : ¬ ('0' ≤ c ∧ c ≤ '9') := by
      rintro ⟨_, hc⟩
      have : c.toNat ≤ 57 := hc
      omega
    have hn2 : ¬ ('A' ≤ c ∧ c ≤ 'F') := by
      rintro ⟨_, hc⟩
      have : c.toNat ≤ 70 := hc
      omega
    unfold hexVal
    rw [if_neg hn1, if_neg hn2, if_pos ⟨h1, h2⟩]
    omega

theorem decodeHex_length (l : List Char) : (decodeHex l).length = l.length / 2 := by
  match l with
  | [] => simp [decodeHex]
  | [c] => simp [decodeHex]
  | c1 :: c2 :: r =>
    simp only [decodeHex, List.length_cons, decodeHex_length r]
    omega

theorem decodeHex_lt {l : List Char} (h : ∀ c ∈ l, isHexDigitChar c) :
    ∀ b ∈ decodeHex l, b < 256 := by
  match l with
  | [] => simp [decodeHex]
  | [c] => simp [decodeHex]
  | c1 :: c2 :: rest =>
    intro b hb
    simp only [decodeHex, List.mem_cons] at hb
    rcases hb with rfl | hb
    · have v1 := hexVal_lt (h c1 (by simp))
      have v2 := hexVal_lt (h c2 (by simp))
      omega
    · exact decodeHex_lt
        (fun c hc => h c (List.mem_cons_of_mem _ (List.mem_cons_of_mem _ hc))) b hb

theorem from_bytes_of_length {b : List Nat} (h : b.length = 16) :
    from_bytes b = some b := by
  unfold from_bytes
  rw [if_neg (by omega)]
  unfold copy_memory
  rw [List.length_replicate, List.take_of_length_le (by omega), h,
    List.drop_replicate]
  simp

/-! ### Error propagation through the pipeline -/

theorem normalize_err_checkLength {us : List Char} {e : ParseError}
    (h : checkLength us = Except.error e) : Uuid.normalize us = Except.error e := by
  unfold Uuid.normalize
  rw [h]

theorem parse_str_err_of_normalize {us : List Char} {e : ParseError}
    (h : Uuid.normalize us = Except.error e) :
    Uuid.parse_str us = Except.error e := by
  unfold Uuid.parse_str
  rw [h]

theorem normalize_err_groupCheck {us : List Char} {e : ParseError}
    (hCL : checkLength us = Except.ok ())
    (hCC : checkChars 0 (stripUrn us) = Except.ok ())
    (hGC : groupCheck ((splitDash (stripUrn us)).map List.length) = Except.error e) :
    Uuid.normalize us = Except.error e := by
  simp only [Uuid.normalize, hCL, hCC, hGC]

/-! ### Finite-check lemmas for the variant and version bit patterns -/

theorem variantOf_testBit : ∀ x < 256, variantOf x =
    some (if ¬ x.testBit 7 then UuidVariant.NCS
      else if ¬ x.testBit 6 then UuidVariant.RFC4122
      else if ¬ x.testBit 5 then UuidVariant.Microsoft
      else UuidVariant.Future) := by decide

theorem variantOf_patterns : ∀ x < 256,
    variantOf (x &&& 0x7f) = some UuidVariant.NCS ∧
    variantOf ((x &&& 0x3f) ||| 0x80) = some UuidVariant.RFC4122 ∧
    variantOf ((x &&& 0x1f) ||| 0xc0) = some UuidVariant.Microsoft ∧
    variantOf ((x &&& 0x1f) ||| 0xe0) = some UuidVariant.Future := by decide

theorem version_nibble_set : ∀ x < 256, ((x &&& 0xF) ||| 0x40) >>> 4 = 4 := by decide

theorem version_low_bits : ∀ x < 256, ∀ k < 4,
    ((x &&& 0xF) ||| 0x40).testBit k = x.testBit k := by decide

theorem variant_low_bits : ∀ x < 256, ∀ k < 6,
    ((x &&& 0x3f) ||| 0x80).testBit k = x.testBit k := by decide

theorem get_version_random {u : UuidBytes} (h : u.getD 6 0 >>> 4 = 4) :
    get_version u = some UuidVersion.Random := by
  unfold get_version
  rw [h]

/-! ## Claim theorems -/

/-- Claim C2: for every input that passes the length, character and grouping
checks and whose 32-character concatenated hex string is not all `'0'`: if the
character at index 12 is not one of `'1'..'5'`, `parse_str` returns
`InvalidVersion` carrying that character; if it is, parsing succeeds. -/
theorem C2_version_validation {us vs : List Char}
    (hnorm : Uuid.normalize us = Except.ok vs) (hnz : ¬ ∀ c ∈ vs, c = '0') :
    (¬ ('1' ≤ vs.getD 12 ' ' ∧ vs.getD 12 ' ' ≤ '5') →
      Uuid.parse_str us = Except.error (ParseError.InvalidVersion (vs.getD 12 ' '))) ∧
    (('1' ≤ vs.getD 12 ' ' ∧ vs.getD 12 ' ' ≤ '5') →
      ∃ u, Uuid.parse_str us = Except.ok u) := by
  rw [parse_str_ok_branch hnorm, if_neg hnz]
  constructor
  · intro hv
    rw [if_neg hv]
  · intro hv
    exact ⟨decodeHex vs, by rw [if_pos hv]⟩

/-- Claim C2 witness: the simple spelling of `sampleBytes` passes all checks,
is not all-zero, and its version character `'4'` is accepted. -/
theorem C2_version_validation_witness :
    (¬ ('1' ≤ (to_simple_string sampleBytes).getD 12 ' ' ∧
        (to_simple_string sampleBytes).getD 12 ' ' ≤ '5') →
      Uuid.parse_str (to_simple_string sampleBytes) =
        Except.error (ParseError.InvalidVersion ((to_simple_string sampleBytes).getD 12 ' '))) ∧
    (('1' ≤ (to_simple_string sampleBytes).getD 12 ' ' ∧
        (to_simple_string sampleBytes).getD 12 ' ' ≤ '5') →
      ∃ u, Uuid.parse_str (to_simple_string sampleBytes) = Except.ok u) :=
  C2_version_validation (by decide) (by decide)

/-- Claim C3: whenever the validation pipeline succeeds and the concatenated
hex string is all `'0'`, `parse_str` returns the nil UUID, bypassing version
validation; in particular on the bare, hyphenated and URN all-zero spellings. -/
theorem C3_nil_shortcut :
    (∀ us vs : List Char, Uuid.normalize us = Except.ok vs →
      (∀ c ∈ vs, c = '0') → Uuid.parse_str us = Except.ok Uuid.nil) ∧
    Uuid.parse_str zeros32 = Except.ok Uuid.nil ∧
    Uuid.parse_str zerosHyphen = Except.ok Uuid.nil ∧
    Uuid.parse_str zerosUrn = Except.ok Uuid.nil := by
  refine ⟨?_, by decide, by decide, by decide⟩
  intro us vs hnorm hz
  rw [parse_str_ok_branch hnorm, if_pos hz]

/-- Claim C3 witness: the universally quantified shortcut applied to the bare
all-zero spelling. -/
theorem C3_nil_shortcut_witness :
    Uuid.parse_str zeros32 = Except.ok Uuid.nil :=
  C3_nil_shortcut.1 zeros32 zeros32 (by decide) (by decide)

/-- Claim C7 counterexample: a string of sixteen two-byte characters has
character length 16 (not 32, 36 or 45), yet `parse_str` reports
`InvalidCharacter`, not `InvalidLength 16`: the length check uses the UTF-8
byte length (here 32), not the character count. -/
theorem C7_counterexample :
    (List.replicate 16 'é').length = 16 ∧
    Uuid.parse_str (List.replicate 16 'é') =
      Except.error (ParseError.InvalidCharacter 'é' 0) ∧
    Uuid.parse_str (List.replicate 16 'é') ≠
      Except.error (ParseError.InvalidLength 16) := by decide

/-- Claim C7 (amended): for every input whose UTF-8 byte length is not 32, 36
or 45, `parse_str` returns `InvalidLength` carrying that byte length,
regardless of content; this check precedes every other parse error. -/
theorem C7_invalid_length (us : List Char)
    (h32 : byteLen us ≠ 32) (h36 : byteLen us ≠ 36) (h45 : byteLen us ≠ 45) :
    Uuid.parse_str us = Except.error (ParseError.InvalidLength (byteLen us)) := by
  apply parse_str_err_of_normalize
  apply normalize_err_checkLength
  unfold checkLength
  rw [if_pos ⟨h32, h36, h45⟩]

/-- Claim C7 witness: a two-character input is rejected with `InvalidLength 2`. -/
theorem C7_invalid_length_witness :
    Uuid.parse_str ['a', 'b'] = Except.error (ParseError.InvalidLength 2) :=
  C7_invalid_length ['a', 'b'] (by decide) (by decide) (by decide)

/-- Claim C9: whenever the validation pipeline succeeds, the concatenated
string has exactly 32 hex characters, so the decode into 16 bytes below 256
cannot fail and the final `from_bytes(..).unwrap()` succeeds. -/
theorem C9_no_abort {us vs : List Char}
    (hnorm : Uuid.normalize us = Except.ok vs) :
    vs.length = 32 ∧ (∀ c ∈ vs, isHexDigitChar c) ∧
    (decodeHex vs).length = 16 ∧ (∀ b ∈ decodeHex vs, b < 256) ∧
    from_bytes (decodeHex vs) = some (decodeHex vs) := by
  obtain ⟨hl, hhex⟩ := normalize_ok_spec hnorm
  have hdl : (decodeHex vs).length = 16 := by rw [decodeHex_length, hl]
  exact ⟨hl, hhex, hdl, decodeHex_lt hhex, from_bytes_of_length hdl⟩

/-- Claim C9 witness: the guarantees instantiated on the all-zero spelling. -/
theorem C9_no_abort_witness :
    zeros32.length = 32 ∧ (∀ c ∈ zeros32, isHexDigitChar c) ∧
    (decodeHex zeros32).length = 16 ∧ (∀ b ∈ decodeHex zeros32, b < 256) ∧
    from_bytes (decodeHex zeros32) = some (decodeHex zeros32) :=
  @C9_no_abort zeros32 zeros32 (by decide)

/-- Claim C8: group validation semantics — one group must have length 32
(else `InvalidLength`), five groups must pairwise match `[8,4,4,4,12]` with
the first mismatch reported as `InvalidGroupLength(index, found, expected)`,
any other count yields `InvalidGroups(count)`; these errors propagate to
`parse_str`, and the crate's own example reports `InvalidGroupLength(3,5,4)`. -/
theorem C8_group_validation :
    (∀ lens : List Nat, lens.length = 1 →
      groupCheck lens = if lens.getD 0 0 = 32 then Except.ok ()
        else Except.error (ParseError.InvalidLength (lens.getD 0 0))) ∧
    (∀ l1 l2 l3 l4 l5 : Nat,
      groupCheck [l1, l2, l3, l4, l5] =
        if l1 ≠ 8 then Except.error (ParseError.InvalidGroupLength 0 l1 8)
        else if l2 ≠ 4 then Except.error (ParseError.InvalidGroupLength 1 l2 4)
        else if l3 ≠ 4 then Except.error (ParseError.InvalidGroupLength 2 l3 4)
        else if l4 ≠ 4 then Except.error (ParseError.InvalidGroupLength 3 l4 4)
        else if l5 ≠ 12 then Except.error (ParseError.InvalidGroupLength 4 l5 12)
        else Except.ok ()) ∧
    (∀ lens : List Nat, lens.length ≠ 1 → lens.length ≠ 5 →
      groupCheck lens = Except.error (ParseError.InvalidGroups lens.length)) ∧
    (∀ (us : List Char) (e : ParseError), checkLength us = Except.ok () →
      checkChars 0 (stripUrn us) = Except.ok () →
      groupCheck ((splitDash (stripUrn us)).map List.length) = Except.error e →
      Uuid.parse_str us = Except.error e) ∧
    Uuid.parse_str groupLenExample =
      Except.error (ParseError.InvalidGroupLength 3 5 4) := by
  refine ⟨?_, ?_, ?_, ?_, by decide⟩
  · intro lens h1
    unfold groupCheck
    rw [if_pos h1]
    by_cases h : lens.getD 0 0 = 32
    · rw [if_neg (not_not_intro h), if_pos h]
    · rw [if_pos h, if_neg h]
  · intro l1 l2 l3 l4 l5
    unfold groupCheck
    rw [if_neg (by simp), if_pos (by simp)]
    simp only [checkGroupLens, UuidGroupLens]
  · intro lens h1 h5
    unfold groupCheck
    rw [if_neg h1, if_neg h5]
  · intro us e hCL hCC hGC
    exact parse_str_err_of_normalize (normalize_err_groupCheck hCL hCC hGC)

/-- Claim C8 witness: a two-group length list is rejected with `InvalidGroups 2`. -/
theorem C8_group_validation_witness :
    groupCheck [3, 3] = Except.error (ParseError.InvalidGroups 2) :=
  C8_group_validation.2.2.1 [3, 3] (by decide) (by decide)

/-- Claim C1 counterexample: the buffer `[1, 0, ..., 0]` is a valid 16-byte
buffer, but parsing its simple spelling fails with `InvalidVersion '0'`
(its version nibble is 0 and it is not the nil UUID), so the unrestricted
round-trip property is false. -/
theorem C1_counterexample :
    ([1, 0, 0, 0, 0, 0, 0, 0, 0, 0, 0, 0, 0, 0, 0, 0] : UuidBytes).length = 16 ∧
    (∀ b ∈ ([1, 0, 0, 0, 0, 0, 0, 0, 0, 0, 0, 0, 0, 0, 0, 0] : UuidBytes), b < 256) ∧
    Uuid.parse_str (to_simple_string [1, 0, 0, 0, 0, 0, 0, 0, 0, 0, 0, 0, 0, 0, 0, 0]) =
      Except.error (ParseError.InvalidVersion '0') ∧
    Uuid.parse_str (to_simple_string [1, 0, 0, 0, 0, 0, 0, 0, 0, 0, 0, 0, 0, 0, 0, 0]) ≠
      Except.ok [1, 0, 0, 0, 0, 0, 0, 0, 0, 0, 0, 0, 0, 0, 0, 0] := by decide

/-- Claim C1 (amended): for every 16-byte buffer that is all-zero or whose
version nibble (high nibble of byte 6) lies in 1..5, parsing the simple,
hyphenated and URN spellings returns the original buffer. -/
theorem C1_round_trip (b0 b1 b2 b3 b4 b5 b6 b7 b8 b9 b10 b11 b12 b13 b14 b15 : Nat)
    (h : ∀ b ∈ [b0, b1, b2, b3, b4, b5, b6, b7, b8, b9, b10, b11, b12, b13, b14, b15], b < 256)
    (hv : (∀ b ∈ ([b0, b1, b2, b3, b4, b5, b6, b7, b8, b9, b10, b11, b12, b13, b14, b15] : UuidBytes), b = 0) ∨ (1 ≤ b6 / 16 ∧ b6 / 16 ≤ 5)) :
    Uuid.parse_str (to_simple_string [b0, b1, b2, b3, b4, b5, b6, b7, b8, b9, b10, b11, b12, b13, b14, b15]) = Except.ok [b0, b1, b2, b3, b4, b5, b6, b7, b8, b9, b10, b11, b12, b13, b14, b15] ∧
    Uuid.parse_str (to_hyphenated_string [b0, b1, b2, b3, b4, b5, b6, b7, b8, b9, b10, b11, b12, b13, b14, b15]) = Except.ok [b0, b1, b2, b3, b4, b5, b6, b7, b8, b9, b10, b11, b12, b13, b14, b15] ∧
    Uuid.parse_str (to_urn_string [b0, b1, b2, b3, b4, b5, b6, b7, b8, b9, b10, b11, b12, b13, b14, b15]) = Except.ok [b0, b1, b2, b3, b4, b5, b6, b7, b8, b9, b10, b11, b12, b13, b14, b15] := by
  have hlen : ([b0, b1, b2, b3, b4, b5, b6, b7, b8, b9, b10, b11, b12, b13, b14, b15] : UuidBytes).length = 16 := rfl
  exact ⟨parse_str_of_normalize h hlen (normalize_to_simple h hlen) hv,
    parse_str_of_normalize h hlen (normalize_to_hyph h) hv,
    parse_str_of_normalize h hlen (normalize_to_urn h) hv⟩

/-- Claim C1 witness: the round trip instantiated on `sampleBytes`
(version nibble 4). -/
theorem C1_round_trip_witness :
    Uuid.parse_str (to_simple_string sampleBytes) = Except.ok sampleBytes ∧
    Uuid.parse_str (to_hyphenated_string sampleBytes) = Except.ok sampleBytes ∧
    Uuid.parse_str (to_urn_string sampleBytes) = Except.ok sampleBytes :=
  C1_round_trip 0x67 0xe5 0x50 0x44 0x10 0xb1 0x42 0x6f 0x92 0x47 0xbb 0x68 0x0e 0x5f 0xe0 0xc8 (by decide) (Or.inr (by decide))

/-- Claim C4: the simple form is 32 lowercase hex characters, two per byte in
buffer order; the hyphenated form is the simple form with hyphens inserted
after digits 8, 12, 16 and 20; the URN form is `"urn:uuid:"` followed by the
hyphenated form. -/
theorem C4_formatting (b0 b1 b2 b3 b4 b5 b6 b7 b8 b9 b10 b11 b12 b13 b14 b15 : Nat)
    (h : ∀ b ∈ [b0, b1, b2, b3, b4, b5, b6, b7, b8, b9, b10, b11, b12, b13, b14, b15], b < 256) :
    (to_simple_string [b0, b1, b2, b3, b4, b5, b6, b7, b8, b9, b10, b11, b12, b13, b14, b15]).length = 32 ∧
    (∀ c ∈ to_simple_string [b0, b1, b2, b3, b4, b5, b6, b7, b8, b9, b10, b11, b12, b13, b14, b15], ('0' ≤ c ∧ c ≤ '9') ∨ ('a' ≤ c ∧ c ≤ 'f')) ∧
    (∀ i < 16,
      (to_simple_string [b0, b1, b2, b3, b4, b5, b6, b7, b8, b9, b10, b11, b12, b13, b14, b15]).getD (2 * i) ' ' =
        hexDigit (List.getD [b0, b1, b2, b3, b4, b5, b6, b7, b8, b9, b10, b11, b12, b13, b14, b15] i 0 / 16) ∧
      (to_simple_string [b0, b1, b2, b3, b4, b5, b6, b7, b8, b9, b10, b11, b12, b13, b14, b15]).getD (2 * i + 1) ' ' =
        hexDigit (List.getD [b0, b1, b2, b3, b4, b5, b6, b7, b8, b9, b10, b11, b12, b13, b14, b15] i 0 % 16)) ∧
    to_hyphenated_string [b0, b1, b2, b3, b4, b5, b6, b7, b8, b9, b10, b11, b12, b13, b14, b15] =
      (to_simple_string [b0, b1, b2, b3, b4, b5, b6, b7, b8, b9, b10, b11, b12, b13, b14, b15]).take 8 ++ '-' ::
      (((to_simple_string [b0, b1, b2, b3, b4, b5, b6, b7, b8, b9, b10, b11, b12, b13, b14, b15]).drop 8).take 4 ++ '-' ::
      (((to_simple_string [b0, b1, b2, b3, b4, b5, b6, b7, b8, b9, b10, b11, b12, b13, b14, b15]).drop 12).take 4 ++ '-' ::
      (((to_simple_string [b0, b1, b2, b3, b4, b5, b6, b7, b8, b9, b10, b11, b12, b13, b14, b15]).drop 16).take 4 ++ '-' ::
      (to_simple_string [b0, b1, b2, b3, b4, b5, b6, b7, b8, b9, b10, b11, b12, b13, b14, b15]).drop 20))) ∧
    to_urn_string [b0, b1, b2, b3, b4, b5, b6, b7, b8, b9, b10, b11, b12, b13, b14, b15] = urnHeader ++ to_hyphenated_string [b0, b1, b2, b3, b4, b5, b6, b7, b8, b9, b10, b11, b12, b13, b14, b15] := by
  refine ⟨?_, mem_to_simple_lower h, ?_, ?_, rfl⟩
  · simp [to_simple_length]
  · intro i hi
    exact ⟨to_simple_getD_even _ i (by simpa using hi),
      to_simple_getD_odd _ i (by simpa using hi)⟩
  · rw [to_hyph_structure h]
    simp [to_simple_string, byteToHex]

/-- Claim C4 witness: the formatting properties instantiated on `sampleBytes`. -/
theorem C4_formatting_witness :
    (to_simple_string sampleBytes).length = 32 ∧
    (∀ c ∈ to_simple_string sampleBytes, ('0' ≤ c ∧ c ≤ '9') ∨ ('a' ≤ c ∧ c ≤ 'f')) ∧
    (∀ i < 16,
      (to_simple_string sampleBytes).getD (2 * i) ' ' =
        hexDigit (List.getD sampleBytes i 0 / 16) ∧
      (to_simple_string sampleBytes).getD (2 * i + 1) ' ' =
        hexDigit (List.getD sampleBytes i 0 % 16)) ∧
    to_hyphenated_string sampleBytes =
      (to_simple_string sampleBytes).take 8 ++ '-' ::
      (((to_simple_string sampleBytes).drop 8).take 4 ++ '-' ::
      (((to_simple_string sampleBytes).drop 12).take 4 ++ '-' ::
      (((to_simple_string sampleBytes).drop 16).take 4 ++ '-' ::
      (to_simple_string sampleBytes).drop 20))) ∧
    to_urn_string sampleBytes = urnHeader ++ to_hyphenated_string sampleBytes :=
  C4_formatting 0x67 0xe5 0x50 0x44 0x10 0xb1 0x42 0x6f 0x92 0x47 0xbb 0x68 0x0e 0x5f 0xe0 0xc8 (by decide)

/-- Claim C5: `set_variant` rewrites byte 8 exactly per the four bit patterns
and leaves all other bytes unchanged; `get_variant` classifies every byte-8
value by its top bits, never returning `none`; and `get_variant` after
`set_variant v` yields `v`. -/
theorem C5_variant (b0 b1 b2 b3 b4 b5 b6 b7 b8 b9 b10 b11 b12 b13 b14 b15 : Nat)
    (h : ∀ b ∈ [b0, b1, b2, b3, b4, b5, b6, b7, b8, b9, b10, b11, b12, b13, b14, b15], b < 256) :
    set_variant [b0, b1, b2, b3, b4, b5, b6, b7, b8, b9, b10, b11, b12, b13, b14, b15] UuidVariant.NCS = [b0, b1, b2, b3, b4, b5, b6, b7, b8 &&& 0x7f, b9, b10, b11, b12, b13, b14, b15] ∧
    set_variant [b0, b1, b2, b3, b4, b5, b6, b7, b8, b9, b10, b11, b12, b13, b14, b15] UuidVariant.RFC4122 = [b0, b1, b2, b3, b4, b5, b6, b7, (b8 &&& 0x3f) ||| 0x80, b9, b10, b11, b12, b13, b14, b15] ∧
    set_variant [b0, b1, b2, b3, b4, b5, b6, b7, b8, b9, b10, b11, b12, b13, b14, b15] UuidVariant.Microsoft = [b0, b1, b2, b3, b4, b5, b6, b7, (b8 &&& 0x1f) ||| 0xc0, b9, b10, b11, b12, b13, b14, b15] ∧
    set_variant [b0, b1, b2, b3, b4, b5, b6, b7, b8, b9, b10, b11, b12, b13, b14, b15] UuidVariant.Future = [b0, b1, b2, b3, b4, b5, b6, b7, (b8 &&& 0x1f) ||| 0xe0, b9, b10, b11, b12, b13, b14, b15] ∧
    get_variant [b0, b1, b2, b3, b4, b5, b6, b7, b8, b9, b10, b11, b12, b13, b14, b15] = some (if ¬ b8.testBit 7 then UuidVariant.NCS
      else if ¬ b8.testBit 6 then UuidVariant.RFC4122
      else if ¬ b8.testBit 5 then UuidVariant.Microsoft
      else UuidVariant.Future) ∧
    (∀ v : UuidVariant, get_variant (set_variant [b0, b1, b2, b3, b4, b5, b6, b7, b8, b9, b10, b11, b12, b13, b14, b15] v) = some v) := by
  have hb8 : b8 < 256 := h _ (by simp)
  refine ⟨rfl, rfl, rfl, rfl, variantOf_testBit b8 hb8, ?_⟩
  intro v
  cases v
  · exact (variantOf_patterns b8 hb8).1
  · exact (variantOf_patterns b8 hb8).2.1
  · exact (variantOf_patterns b8 hb8).2.2.1
  · exact (variantOf_patterns b8 hb8).2.2.2

/-- Claim C5 witness: the variant properties instantiated on `sampleBytes`
(byte 8 is `0x92`, variant RFC4122). -/
theorem C5_variant_witness :
    set_variant sampleBytes UuidVariant.NCS =
      [0x67, 0xe5, 0x50, 0x44, 0x10, 0xb1, 0x42, 0x6f,
       0x92 &&& 0x7f, 0x47, 0xbb, 0x68, 0x0e, 0x5f, 0xe0, 0xc8] ∧
    set_variant sampleBytes UuidVariant.RFC4122 =
      [0x67, 0xe5, 0x50, 0x44, 0x10, 0xb1, 0x42, 0x6f,
       (0x92 &&& 0x3f) ||| 0x80, 0x47, 0xbb, 0x68, 0x0e, 0x5f, 0xe0, 0xc8] ∧
    set_variant sampleBytes UuidVariant.Microsoft =
      [0x67, 0xe5, 0x50, 0x44, 0x10, 0xb1, 0x42, 0x6f,
       (0x92 &&& 0x1f) ||| 0xc0, 0x47, 0xbb, 0x68, 0x0e, 0x5f, 0xe0, 0xc8] ∧
    set_variant sampleBytes UuidVariant.Future =
      [0x67, 0xe5, 0x50, 0x44, 0x10, 0xb1, 0x42, 0x6f,
       (0x92 &&& 0x1f) ||| 0xe0, 0x47, 0xbb, 0x68, 0x0e, 0x5f, 0xe0, 0xc8] ∧
    get_variant sampleBytes = some (if ¬ Nat.testBit 0x92 7 then UuidVariant.NCS
      else if ¬ Nat.testBit 0x92 6 then UuidVariant.RFC4122
      else if ¬ Nat.testBit 0x92 5 then UuidVariant.Microsoft
      else UuidVariant.Future) ∧
    (∀ v : UuidVariant, get_variant (set_variant sampleBytes v) = some v) :=
  C5_variant 0x67 0xe5 0x50 0x44 0x10 0xb1 0x42 0x6f 0x92 0x47 0xbb 0x68 0x0e 0x5f 0xe0 0xc8 (by decide)

/-- Claim C6: `new_v4` applied to any 16 random bytes yields version Random
(numeric 4) and variant RFC4122; every bit outside the version nibble of
byte 6 and the top two bits of byte 8 equals the corresponding input bit
(bytes other than 6 and 8 are copied verbatim); and `new_v4` is total. -/
theorem C6_new_v4 (r0 r1 r2 r3 r4 r5 r6 r7 r8 r9 r10 r11 r12 r13 r14 r15 : Nat)
    (h : ∀ b ∈ [r0, r1, r2, r3, r4, r5, r6, r7, r8, r9, r10, r11, r12, r13, r14, r15], b < 256) :
    new_v4 [r0, r1, r2, r3, r4, r5, r6, r7, r8, r9, r10, r11, r12, r13, r14, r15] = [r0, r1, r2, r3, r4, r5, (r6 &&& 0xF) ||| 0x40, r7, (r8 &&& 0x3f) ||| 0x80, r9, r10, r11, r12, r13, r14, r15] ∧
    get_version (new_v4 [r0, r1, r2, r3, r4, r5, r6, r7, r8, r9, r10, r11, r12, r13, r14, r15]) = some UuidVersion.Random ∧
    get_version_num (new_v4 [r0, r1, r2, r3, r4, r5, r6, r7, r8, r9, r10, r11, r12, r13, r14, r15]) = 4 ∧
    get_variant (new_v4 [r0, r1, r2, r3, r4, r5, r6, r7, r8, r9, r10, r11, r12, r13, r14, r15]) = some UuidVariant.RFC4122 ∧
    (∀ k < 4, ((r6 &&& 0xF) ||| 0x40).testBit k = r6.testBit k) ∧
    (∀ k < 6, ((r8 &&& 0x3f) ||| 0x80).testBit k = r8.testBit k) := by
  have h6 : r6 < 256 := h _ (by simp)
  have h8 : r8 < 256 := h _ (by simp)
  exact ⟨rfl, get_version_random (version_nibble_set r6 h6), version_nibble_set r6 h6,
    (variantOf_patterns r8 h8).2.1, version_low_bits r6 h6, variant_low_bits r8 h8⟩

/-- Claim C6 witness: `new_v4` on the bytes 0..15. -/
theorem C6_new_v4_witness :
    new_v4 [0, 1, 2, 3, 4, 5, 6, 7, 8, 9, 10, 11, 12, 13, 14, 15] =
      [0, 1, 2, 3, 4, 5, (6 &&& 0xF) ||| 0x40, 7,
       (8 &&& 0x3f) ||| 0x80, 9, 10, 11, 12, 13, 14, 15] ∧
    get_version (new_v4 [0, 1, 2, 3, 4, 5, 6, 7, 8, 9, 10, 11, 12, 13, 14, 15]) =
      some UuidVersion.Random ∧
    get_version_num (new_v4 [0, 1, 2, 3, 4, 5, 6, 7, 8, 9, 10, 11, 12, 13, 14, 15]) = 4 ∧
    get_variant (new_v4 [0, 1, 2, 3, 4, 5, 6, 7, 8, 9, 10, 11, 12, 13, 14, 15]) =
      some UuidVariant.RFC4122 ∧
    (∀ k < 4, ((6 &&& 0xF) ||| 0x40).testBit k = Nat.testBit 6 k) ∧
    (∀ k < 6, ((8 &&& 0x3f) ||| 0x80).testBit k = Nat.testBit 8 k) :=
  C6_new_v4 0 1 2 3 4 5 6 7 8 9 10 11 12 13 14 15 (by decide)

/-- Claim C10: `from_fields` is total, packs `d1`, `d2`, `d3` as big-endian
bytes, copies `min (length d4) 8` bytes of `d4` into the tail, zero-pads a
short `d4` and silently ignores extra bytes of a long one. -/
theorem C10_from_fields (d1 d2 d3 : Nat) (d4 : List Nat)
    (h1 : d1 < 2 ^ 32) (h2 : d2 < 2 ^ 16) (h3 : d3 < 2 ^ 16) :
    from_fields d1 d2 d3 d4 =
      [d1 / 2 ^ 24, d1 / 2 ^ 16 % 256, d1 / 2 ^ 8 % 256, d1 % 256,
       d2 / 2 ^ 8, d2 % 256, d3 / 2 ^ 8, d3 % 256] ++
      (d4.take 8 ++ List.replicate (8 - d4.length) 0) ∧
    (from_fields d1 d2 d3 d4).length = 16 ∧
    d1 / 2 ^ 24 * 2 ^ 24 + d1 / 2 ^ 16 % 256 * 2 ^ 16 +
      d1 / 2 ^ 8 % 256 * 2 ^ 8 + d1 % 256 = d1 ∧
    d2 / 2 ^ 8 * 2 ^ 8 + d2 % 256 = d2 ∧
    d3 / 2 ^ 8 * 2 ^ 8 + d3 % 256 = d3 := by
  have e8 : (2 : Nat) ^ 8 = 256 := by norm_num
  have e16 : (2 : Nat) ^ 16 = 65536 := by norm_num
  have e24 : (2 : Nat) ^ 24 = 16777216 := by norm_num
  have e32 : (2 : Nat) ^ 32 = 4294967296 := by norm_num
  have hcm : copy_memory (List.replicate 8 0) d4 =
      d4.take 8 ++ List.replicate (8 - d4.length) 0 := by
    unfold copy_memory
    rw [List.length_replicate, List.drop_replicate]
  refine ⟨?_, ?_, ?_, ?_, ?_⟩
  · unfold from_fields
    rw [hcm]
    have hm1 : d1 / 2 ^ 24 % 256 = d1 / 2 ^ 24 := Nat.mod_eq_of_lt (by
      rw [e24]; rw [e32] at h1; omega)
    have hm2 : d2 / 2 ^ 8 % 256 = d2 / 2 ^ 8 := Nat.mod_eq_of_lt (by
      rw [e8]; rw [e16] at h2; omega)
    have hm3 : d3 / 2 ^ 8 % 256 = d3 / 2 ^ 8 := Nat.mod_eq_of_lt (by
      rw [e8]; rw [e16] at h3; omega)
    rw [hm1, hm2, hm3]
  · simp only [from_fields, copy_memory, List.length_append, List.length_cons,
      List.length_nil, List.length_take, List.length_drop, List.length_replicate]
    omega
  · rw [e8, e16, e24]
    omega
  · rw [e8]
    omega
  · rw [e8]
    omega

/-- Claim C10 witness: the field constructor on a 3-byte `d4`, showing the
zero padding (matching the crate's `test_from_fields` values, truncated). -/
theorem C10_from_fields_witness :
    (0xa1a2a3a4 : Nat) < 2 ^ 32 ∧
    from_fields 0xa1a2a3a4 0xb1b2 0xc1c2 [0xd1, 0xd2, 0xd3] =
      [0xa1a2a3a4 / 2 ^ 24, 0xa1a2a3a4 / 2 ^ 16 % 256, 0xa1a2a3a4 / 2 ^ 8 % 256,
       0xa1a2a3a4 % 256, 0xb1b2 / 2 ^ 8, 0xb1b2 % 256, 0xc1c2 / 2 ^ 8, 0xc1c2 % 256] ++
      ([0xd1, 0xd2, 0xd3].take 8 ++
        List.replicate (8 - ([0xd1, 0xd2, 0xd3] : List Nat).length) 0) :=
  ⟨by decide, (C10_from_fields 0xa1a2a3a4 0xb1b2 0xc1c2 [0xd1, 0xd2, 0xd3]
    (by decide) (by decide) (by decide)).1⟩
